import Mathlib

/-!
Verification of the koalacloud home-server dashboard (`app.py`) against its
natural-language specification.

The development shallowly embeds the parts of the program the claims are
about:

* a model of POSIX paths as handled by Python's `pathlib.PurePosixPath` /
  `Path` (segment lists; `.resolve()` is modelled lexically, i.e. the
  filesystem is assumed symlink-free, which is the honest reading of
  "canonical form" for paths that need not exist);
* the sandbox join `_safe_join` (identical algorithm for the storage and the
  download root, so it is parameterised by the root's segments);
* the aria2 reconciler pieces: `_infer_name`, the destination-folder
  inference inside `_record_history`, `_record_history` itself with its
  sqlite transaction semantics (the `with sqlite3.connect(...)` block
  commits on normal exit and rolls back when an exception escapes, and the
  un-guarded `_aria2_call("aria2.removeDownloadResult", ...)` can raise),
  and the per-tick filtering done by `_torrent_task`;
* the share registry: `api_share` and the public `shared_entry` endpoint;
* the local yt-dlp job tracker: `youtubedl_add`, the success path of
  `run_youtubedl`, and the `_ytdl_task` snapshot, over an explicit state
  holding the `youtubedl_history` table and the `YTDL_TASKS` dict.

External effects (filesystem existence tests, the aria2 RPC round-trips)
are oracles passed in as parameters; database tables are lists of rows.
-/

namespace KoalaCloud

/-! ### Python `pathlib` path model -/

/-- A parsed POSIX path: absolute-or-not plus the non-root components, as in
`PurePosixPath.parts` (without the leading `"/"` marker, which `partsOf`
re-adds).  Parsing drops empty components and `"."` just like `pathlib`;
`".."` components are kept. -/
structure PyPath where
  isAbs : Bool
  segs : List String
deriving DecidableEq

/-- Split a character list at `'/'`, keeping empty pieces (like
`str.split("/")`); `parsePath` filters the empties out afterwards. -/
def splitSlashAux : List Char → List Char → List (List Char)
  | cur, [] => [cur.reverse]
  | cur, c :: cs =>
    if c == '/' then cur.reverse :: splitSlashAux [] cs
    else splitSlashAux (c :: cur) cs

/-- `Path(s)` for a POSIX string `s`: leading `'/'` makes it absolute, empty
and `"."` components vanish.  (The POSIX `"//"` special root is not
distinguished from `"/"`.) -/
def parsePath (s : String) : PyPath :=
  let cl := s.toList
  let pieces := splitSlashAux [] cl
  let keep := pieces.filter (fun p => !p.isEmpty && p != ['.'])
  ⟨cl.head? == some '/', keep.map (fun l => String.mk l)⟩

/-- Join segments with `"/"` (no leading/trailing separator). -/
def joinSegs : List String → String
  | [] => ""
  | [a] => a
  | a :: b :: rest => a ++ "/" ++ joinSegs (b :: rest)

/-- `str(p)` for a parsed path: `"/..."` when absolute, `"."` for the empty
relative path. -/
def strOfPath (p : PyPath) : String :=
  if p.isAbs then "/" ++ joinSegs p.segs
  else if p.segs.isEmpty then "." else joinSegs p.segs

/-- `a.startswith(b)` on Python strings. -/
def pyStartsWith (a b : String) : Bool :=
  b.toList.isPrefixOf a.toList

/-- `s.lstrip('/')`. -/
def lstripSlash (s : String) : String :=
  String.mk (s.toList.dropWhile (fun c => c == '/'))

/-- `s.strip("/")`: remove `'/'` from both ends. -/
def pyStripSlash (s : String) : String :=
  String.mk (((s.toList.dropWhile (fun c => c == '/')).reverse.dropWhile
    (fun c => c == '/')).reverse)

/-- `Path.resolve()` on the segments of an absolute path, in a symlink-free
filesystem: process `".."` lexically, staying at the root when it
underflows (`Path("/..").resolve() == Path("/")`). -/
def resolveSegs (l : List String) : List String :=
  l.foldl (fun acc s => if s = ".." then acc.dropLast else acc ++ [s]) []

/-- The path named by segments `p` lies inside the root named by segments
`root` (both rooted at `/`): the root's segments are a prefix. -/
def insideRoot (root p : List String) : Prop :=
  root <+: p

instance (root p : List String) : Decidable (insideRoot root p) :=
  inferInstanceAs (Decidable (root <+: p))

/-- `_safe_join` (and identically `_safe_join_download`, which only differs
in the root): strip leading separators, join to the root, `resolve()`, then
require `str(resolved).startswith(str(root))`; `None` models the
`abort(400, 'Path escapes ... root')` client error. -/
def safe_join (root : List String) (rel : String) : Option (List String) :=
  let stripped := lstripSlash rel
  let joined := root ++ (parsePath stripped).segs
  let resolved := resolveSegs joined
  if pyStartsWith (strOfPath ⟨true, resolved⟩) (strOfPath ⟨true, root⟩) then
    some resolved
  else
    none

/-! ### aria2 job rows and the reconciler -/

/-- One entry of an aria2 `files` list; `path` is `none` when the `"path"`
key is absent (or `None`). -/
structure AriaFile where
  path : Option String
deriving DecidableEq

/-- The `info` block of an aria2 `bittorrent` field. -/
structure BtInfo where
  name : Option String
deriving DecidableEq

/-- The aria2 `bittorrent` metadata block; an absent or empty dict is
`none` (Python truthiness collapses both). -/
structure Bittorrent where
  info : Option BtInfo
deriving DecidableEq

/-- One job row as reported by aria2's `tellActive`/`tellWaiting`/
`tellStopped`. -/
structure AriaRow where
  gid : Option String
  status : String
  totalLength : Option Int
  files : List AriaFile
  bittorrent : Option Bittorrent
deriving DecidableEq

/-- The embedded structured name: `bt["info"]["name"]` when the chain of
dicts is present and the name is truthy (non-empty). -/
def btName (bt : Option Bittorrent) : Option String :=
  match bt with
  | none => none
  | some b =>
    match b.info with
    | none => none
    | some i =>
      match i.name with
      | none => none
      | some n => if n = "" then none else some n

/-- Longest common prefix of two segment lists; folding it over all lists
computes exactly the `zip(*parts)` / all-equal loop of `_infer_name`. -/
def commonPrefix2 : List String → List String → List String
  | a :: as, b :: bs => if a = b then a :: commonPrefix2 as bs else []
  | _, _ => []

/-- `PurePosixPath.parts`: the root marker `"/"` followed by the segments
for an absolute path, just the segments otherwise. -/
def partsOf (p : PyPath) : List String :=
  if p.isAbs then "/" :: p.segs else p.segs

/-- `Path(...).name`: the last segment, `""` for `/` and for the empty
relative path. -/
def pathNameOf (p : PyPath) : String :=
  (p.segs.getLast?).getD ""

/-- `Path(*common).name` where `common` is a parts list (possibly starting
with the root marker `"/"`). -/
def nameOfParts (l : List String) : String :=
  match l with
  | "/" :: rest => (rest.getLast?).getD ""
  | other => (other.getLast?).getD ""

/-- `_infer_name(files, bt)`: prefer the embedded structured name; else the
last segment of the longest common parts prefix of all (truthy-path) files;
else the first file's own name; else `"(unknown)"`. -/
def infer_name (files : List AriaFile) (bt : Option Bittorrent) : String :=
  match btName bt with
  | some n => n
  | none =>
    match files with
    | [] => "(unknown)"
    | f0 :: _ =>
      let partsList := files.filterMap (fun f =>
        match f.path with
        | some s => if s = "" then none else some (partsOf (parsePath s))
        | none => none)
      match partsList with
      | [] => pathNameOf (parsePath (f0.path.getD ""))
      | q :: qs =>
        let common := qs.foldl commonPrefix2 q
        if common.isEmpty then pathNameOf (parsePath (f0.path.getD ""))
        else
          let nm := nameOfParts common
          if nm = "" then pathNameOf (parsePath (f0.path.getD "")) else nm

/-- `p.parent`: drop the last component (the parent of `/` is `/`, of `"."`
is `"."`, both with empty `segs`). -/
def parentP (p : PyPath) : PyPath :=
  ⟨p.isAbs, p.segs.dropLast⟩

/-- `p.relative_to(root)` against an absolute root: succeeds iff `p` is
absolute and the root's segments are a prefix, else raises `ValueError`
(modelled as `none`). -/
def relTo (p : PyPath) (root : List String) : Option (List String) :=
  if p.isAbs && root.isPrefixOf p.segs then
    some (p.segs.drop root.length)
  else
    none

/-- `str` of a relative path given by its segments (`"."` when empty). -/
def strOfRelSegs (l : List String) : String :=
  if l.isEmpty then "." else joinSegs l

/-- The destination-folder inference inside `_record_history`: start from
`"/"`; with a first file whose `str` starts with `str(DOWNLOAD_ROOT)`, set
`"/" + str(p0.parent.relative_to(DOWNLOAD_ROOT)).strip("/")`; every
exception (missing `"path"` key, `ValueError` from `relative_to`) is
swallowed, leaving `"/"`. -/
def infer_dest (droot : List String) (files : List AriaFile) : String :=
  match files with
  | [] => "/"
  | f0 :: _ =>
    match f0.path with
    | none => "/"
    | some s =>
      let p0 := parsePath s
      if pyStartsWith (strOfPath p0) (strOfPath ⟨true, droot⟩) then
        match relTo (parentP p0) droot with
        | some rel => "/" ++ pyStripSlash (strOfRelSegs rel)
        | none => "/"
      else "/"

/-- The claim's reading of the destination folder, written from the spec's
words: the parent directory of the job's first file expressed relative to
the download root (the root itself reading as `"."`), and `"/"` whenever
that cannot be computed (no files, no path, or a first file not lying under
the root). -/
def dest_spec (droot : List String) (files : List AriaFile) : String :=
  match files with
  | [] => "/"
  | f0 :: _ =>
    match f0.path with
    | none => "/"
    | some s =>
      let p := parsePath s
      if p.isAbs = true ∧ droot <+: p.segs ∧ p.segs ≠ droot then
        "/" ++ strOfRelSegs (p.segs.dropLast.drop droot.length)
      else "/"

/-- One row of the `torrent_history` table. -/
structure THRow where
  name : String
  gid : Option String
  dest : String
  sizeBytes : Int
  addedAt : Int
  completedAt : Int
deriving DecidableEq

/-- The row `_record_history` inserts for an observed completed job. -/
def mkTHRow (droot : List String) (now : Int) (t : AriaRow) : THRow :=
  { name := infer_name t.files t.bittorrent
    gid := t.gid
    dest := infer_dest droot t.files
    sizeBytes := t.totalLength.getD 0
    addedAt := now
    completedAt := now }

/-- The `SELECT 1 FROM torrent_history WHERE gid=? LIMIT 1` existence
check.  SQL equality with `NULL` matches no row, so a `None` gid never
finds an existing record. -/
def gidExists (hist : List THRow) (g : Option String) : Bool :=
  match g with
  | none => false
  | some s => hist.any (fun r => r.gid == some s)

/-- Number of history rows carrying gid `g`. -/
def countGid (hist : List THRow) (g : String) : Nat :=
  hist.countP (fun r => r.gid == some g)

/-- The pure per-row processing of `_record_history` (existence check then
insert), ignoring the forget RPC: the working state is the transaction's
view, which inside one sqlite connection includes its own uncommitted
inserts. -/
def rhFold (droot : List String) (now : Int) : List THRow → List AriaRow → List THRow
  | hist, [] => hist
  | hist, t :: rest =>
    rhFold droot now
      (if gidExists hist t.gid then hist else hist ++ [mkTHRow droot now t]) rest

/-- The body of `_record_history`'s `with sqlite3.connect(...)` block:
after each row's check-then-insert the un-guarded
`_aria2_call("aria2.removeDownloadResult", [gid])` runs; `forget` says
whether that RPC succeeds.  A raising RPC aborts the block (`none`),
otherwise the loop ends in `conn.commit()` (`some`). -/
def recordHistoryGo (droot : List String) (forget : Option String → Bool)
    (now : Int) : List THRow → List AriaRow → Option (List THRow)
  | hist, [] => some hist
  | hist, t :: rest =>
    let hist' := if gidExists hist t.gid then hist else hist ++ [mkTHRow droot now t]
    if forget t.gid then recordHistoryGo droot forget now hist' rest else none

/-- `_record_history(rows)`: no-op on an empty list; otherwise run the
transaction body, committing its result on success and rolling back to the
incoming table when the forget RPC raises (the exception then propagates to
`_torrent_task`, which swallows it). -/
def record_history (droot : List String) (forget : Option String → Bool)
    (now : Int) (hist : List THRow) (rows : List AriaRow) : List THRow :=
  if rows.isEmpty then hist
  else
    match recordHistoryGo droot forget now hist rows with
    | some h => h
    | none => hist

/-- One `_torrent_task` tick's effect on `torrent_history`: commit the
stopped rows whose status is `"complete"`. -/
def torrentTick (droot : List String) (forget : Option String → Bool)
    (now : Int) (hist : List THRow) (stopped : List AriaRow) : List THRow :=
  record_history droot forget now hist
    (stopped.filter (fun r => r.status == "complete"))

/-! ### Share registry -/

/-- Python `int(x)` on a float/rational: truncation toward zero. -/
def pyTrunc (q : ℚ) : ℤ :=
  if 0 ≤ q then ⌊q⌋ else ⌈q⌉

/-- One row of the `shares` table. -/
structure ShareRow where
  token : String
  target_path : String
  is_dir : Bool
  expires_at : Option Int
  created_at : Int
deriving DecidableEq

/-- `POST /api/share` (`api_share`): 404 (`none`) when the sandboxed target
does not exist; otherwise insert a row whose `expires_at` is
`int(time.time() + hours*3600)` for `hours > 0` and SQL `NULL` otherwise.
`fsExists`/`isDirFs` are the filesystem oracles for `target.exists()` and
`target.is_dir()`. -/
def api_share (shares : List ShareRow) (fsExists isDirFs : String → Bool)
    (target : String) (hours : ℚ) (now : ℚ) (token : String) :
    Option (List ShareRow) :=
  if fsExists target then
    some (shares ++
      [{ token := token
         target_path := target
         is_dir := isDirFs target
         expires_at := if 0 < hours then some (pyTrunc (now + hours * 3600)) else none
         created_at := pyTrunc now }])
  else none

/-- `SELECT ... FROM shares WHERE token=?` then `fetchone()`. -/
def findShare (shares : List ShareRow) (token : String) : Option ShareRow :=
  shares.find? (fun r => r.token == token)

/-- `if expires_at and time.time() > expires_at`: an expiry of SQL `NULL`
(or the falsy `0`) never expires. -/
def isExpired (e : Option Int) (now : ℚ) : Bool :=
  match e with
  | some v => decide (v ≠ 0) && decide ((v : ℚ) < now)
  | none => false

/-- The observable outcomes of `GET /s/<token>`. -/
inductive ShareOutcome where
  /-- `abort(404)`: unknown token, or the target no longer exists. -/
  | notFound
  /-- `abort(410, description='Link expired')`. -/
  | expired
  /-- `send_file(target, ...)` for a file share. -/
  | fileServed (path : String)
  /-- `abort(400)`: child path escaped the shared directory. -/
  | badChild
  /-- `send_file(current, ...)` for a file inside a directory share. -/
  | childFileServed (path : String)
  /-- The rendered directory listing for `current`. -/
  | dirListing (path : String)
deriving DecidableEq

/-- `Path(target) / child`: an absolute `child` replaces the target. -/
def joinChild (target : PyPath) (child : String) : PyPath :=
  let c := parsePath child
  if c.isAbs then c else ⟨target.isAbs, target.segs ++ c.segs⟩

/-- `p.resolve()` in the symlink-free model. -/
def resolveP (p : PyPath) : PyPath :=
  ⟨p.isAbs, resolveSegs p.segs⟩

/-- `GET /s/<token>` (`shared_entry`): look the token up; expired links
410; a missing target 404; a file share streams the stored target at once
(the `p` query parameter is never read); a directory share resolves the
child against the stored target and re-checks containment with
`str.startswith`. -/
def shared_entry (shares : List ShareRow) (fsExists fsIsFile : String → Bool)
    (now : ℚ) (token child : String) : ShareOutcome :=
  match findShare shares token with
  | none => .notFound
  | some row =>
    if isExpired row.expires_at now then .expired
    else if !fsExists row.target_path then .notFound
    else if !row.is_dir then .fileServed row.target_path
    else
      let target := parsePath row.target_path
      let current := if child = "" then target else joinChild target child
      let cur := resolveP current
      if !pyStartsWith (strOfPath cur) (strOfPath (resolveP target)) then .badChild
      else if fsIsFile (strOfPath cur) then .childFileServed (strOfPath cur)
      else .dirListing (strOfPath cur)

/-! ### Local yt-dlp job tracker -/

/-- One row of the `youtubedl_history` table. -/
structure YtdlRow where
  id : Nat
  name : String
  url : String
  dest : String
  audioOnly : Bool
  addedAt : Int
  completedAt : Option Int
deriving DecidableEq

/-- In-memory process state for the tracker: the `youtubedl_history` table,
the `YTDL_TASKS` dict (task id to status), and the table's autoincrement
counter. -/
structure YtdlState where
  history : List YtdlRow
  tasks : List (String × String)
  nextId : Nat
deriving DecidableEq

/-- `POST /admin/youtubedl/add` (`youtubedl_add`) for an accepted
submission: insert and commit the placeholder row, then hand
`(task_id, db_id)` to the worker thread.  Faithful to the source,
`YTDL_TASKS` is not written: no handle for `taskId` is created. -/
def youtubedl_add (s : YtdlState) (link dest : String) (audioOnly : Bool)
    (now : Int) (taskId : String) : YtdlState × String × Nat :=
  let row : YtdlRow :=
    { id := s.nextId, name := "Fetching title...", url := link, dest := dest
      audioOnly := audioOnly, addedAt := now, completedAt := none }
  (⟨s.history ++ [row], s.tasks, s.nextId + 1⟩, taskId, s.nextId)

/-- `UPDATE youtubedl_history SET name=? WHERE id=?`. -/
def dbUpdateName (hist : List YtdlRow) (dbId : Nat) (title : String) : List YtdlRow :=
  hist.map (fun r => if r.id = dbId then { r with name := title } else r)

/-- `UPDATE youtubedl_history SET completed_at=? WHERE id=?`. -/
def dbUpdateCompleted (hist : List YtdlRow) (dbId : Nat) (ts : Int) : List YtdlRow :=
  hist.map (fun r => if r.id = dbId then { r with completedAt := some ts } else r)

/-- `if task_id in YTDL_TASKS: YTDL_TASKS[task_id]['status'] = st` — an
update of the handle when present, a no-op otherwise. -/
def setTaskStatus (tasks : List (String × String)) (tid st : String) :
    List (String × String) :=
  tasks.map (fun p => if p.1 = tid then (p.1, st) else p)

/-- The success path of `run_youtubedl`: resolve the title and update the
row's name, perform the download, set `completed_at`, then mark the task
`finished` (guarded on the handle being present). -/
def run_youtubedl_success (s : YtdlState) (taskId : String) (dbId : Nat)
    (title : String) (doneAt : Int) : YtdlState :=
  let s1 : YtdlState := { s with history := dbUpdateName s.history dbId title }
  let s2 : YtdlState := { s1 with history := dbUpdateCompleted s1.history dbId doneAt }
  { s2 with tasks := setTaskStatus s2.tasks taskId "finished" }

/-- The `_ytdl_task` broadcast snapshot: the tasks not in a terminal
status. -/
def ytdlSnapshot (s : YtdlState) : List (String × String) :=
  s.tasks.filter (fun p => !(p.2 == "finished") && !(p.2 == "error"))

/-- The ordered observable effects of one accepted `youtubedl_add` request,
in source order: the sqlite insert of the placeholder row, its commit, then
`thread.start()` for the worker of that row. -/
inductive YtdlEvent where
  | dbInsert (row : YtdlRow)
  | dbCommit
  | workerStart (taskId : String) (dbId : Nat)
deriving DecidableEq

/-- Event trace of `youtubedl_add` for an accepted submission. -/
def youtubedl_add_trace (link dest : String) (audioOnly : Bool) (now : Int)
    (taskId : String) (dbId : Nat) : List YtdlEvent :=
  [ .dbInsert { id := dbId, name := "Fetching title...", url := link, dest := dest
                audioOnly := audioOnly, addedAt := now, completedAt := none }
  , .dbCommit
  , .workerStart taskId dbId ]

/-! ### Concrete inputs used by counterexamples and witnesses -/

/-- A completed aria2 row with gid `g1`. -/
def cexRow1 : AriaRow :=
  { gid := some "g1", status := "complete", totalLength := some 7
    files := [], bittorrent := none }

/-- A completed aria2 row with gid `g2`. -/
def cexRow2 : AriaRow :=
  { gid := some "g2", status := "complete", totalLength := some 9
    files := [], bittorrent := none }

/-- A forget oracle that fails exactly on gid `g2`. -/
def cexForget : Option String → Bool :=
  fun g => !(g == some "g2")

/-- A completed aria2 row used by the dedup witness. -/
def wRow : AriaRow :=
  { gid := some "gW", status := "complete", totalLength := none
    files := [], bittorrent := none }

/-- A shares table holding one expired file share. -/
def cexShares : List ShareRow :=
  [{ token := "t1", target_path := "/root/f.txt", is_dir := false
     expires_at := some 100, created_at := 50 }]

/-- A shares table holding one unexpired file share. -/
def wShares : List ShareRow :=
  [{ token := "t3", target_path := "/root/file.bin", is_dir := false
     expires_at := none, created_at := 10 }]

/-! ## Helper lemmas -/

theorem resolveSegs_foldl (l acc : List String) (h : ".." ∉ l) :
    l.foldl (fun acc s => if s = ".." then acc.dropLast else acc ++ [s]) acc = acc ++ l := by
  induction l generalizing acc with
  | nil => simp
  | cons s rest ih =>
    have hs : s ≠ ".." := fun e => h (e ▸ List.mem_cons_self s rest)
    have hr : ".." ∉ rest := fun hm => h (List.mem_cons_of_mem _ hm)
    simp only [List.foldl_cons, if_neg hs, ih _ hr, List.append_assoc,
      List.singleton_append]

theorem resolveSegs_eq_self (l : List String) (h : ".." ∉ l) :
    resolveSegs l = l := by
  simpa using resolveSegs_foldl l [] h

/-! ## C1: path sandboxing in `_safe_join` -/

/-- C1 (counterexample): the claim that `_safe_join` never returns a path
outside the root is false: under root `/data/store` the relative path
`../store2/secret` resolves to `/data/store2/secret`, whose string passes
the `startswith` check although the path lies outside the root. -/
theorem safe_join_escape_cex :
    safe_join ["data", "store"] "../store2/secret" = some ["data", "store2", "secret"] ∧
    ¬ insideRoot ["data", "store"] ["data", "store2", "secret"] := by
  decide

/-- C1 (amended): `_safe_join` either signals `PathEscape` or returns the
resolved path, and all it guarantees about a returned path is that its
string form has the root's string form as a prefix — which admits sibling
directories whose names extend the root's last segment.  For `".."`-free
inputs (and a canonical root) the returned path does lie inside the
root. -/
theorem safe_join_checked (root : List String) (rel : String) (p : List String)
    (h : safe_join root rel = some p) :
    pyStartsWith (strOfPath ⟨true, p⟩) (strOfPath ⟨true, root⟩) = true ∧
    (".." ∉ root → ".." ∉ (parsePath (lstripSlash rel)).segs → insideRoot root p) := by
  simp only [safe_join] at h
  split at h
  case isTrue hc =>
    obtain rfl : resolveSegs (root ++ (parsePath (lstripSlash rel)).segs) = p := by
      simpa using h
    refine ⟨hc, fun hr hs => ?_⟩
    have hno : ".." ∉ root ++ (parsePath (lstripSlash rel)).segs := by
      simp only [List.mem_append]
      rintro (hm | hm)
      · exact hr hm
      · exact hs hm
    rw [resolveSegs_eq_self _ hno]
    exact List.prefix_append root _
  case isFalse hc => cases h

/-- Witness for `safe_join_checked` at the concrete input `x` under root
`/data/store`. -/
theorem safe_join_checked_witness :
    pyStartsWith (strOfPath ⟨true, ["data", "store", "x"]⟩)
      (strOfPath ⟨true, ["data", "store"]⟩) = true ∧
    (".." ∉ (["data", "store"] : List String) →
      ".." ∉ (parsePath (lstripSlash "x")).segs →
      insideRoot ["data", "store"] ["data", "store", "x"]) :=
  safe_join_checked ["data", "store"] "x" ["data", "store", "x"] (by decide)

/-! ## C2/C6: the reconciler's history commit -/

theorem gidExists_eq_true_iff (hist : List THRow) (g : String) :
    gidExists hist (some g) = true ↔ 0 < countGid hist g := by
  simp [gidExists, countGid, List.any_eq_true, List.countP_pos_iff]

theorem gidExists_eq_false (hist : List THRow) (g : String)
    (h : countGid hist g = 0) : gidExists hist (some g) = false := by
  cases hb : gidExists hist (some g)
  · rfl
  · have := (gidExists_eq_true_iff hist g).mp hb
    omega

theorem countGid_append (h1 h2 : List THRow) (g : String) :
    countGid (h1 ++ h2) g = countGid h1 g + countGid h2 g := by
  simp [countGid, List.countP_append]

theorem countGid_single_eq (t : THRow) (g : String) (h : t.gid = some g) :
    countGid [t] g = 1 := by
  simp [countGid, List.countP_cons, h]

theorem countGid_single_ne (t : THRow) (g : String) (h : t.gid ≠ some g) :
    countGid [t] g = 0 := by
  simp [countGid, List.countP_cons, h]

theorem rhFold_count_pres (droot : List String) (now : Int) (g : String)
    (rows : List AriaRow) (hist : List THRow) (hpos : 0 < countGid hist g) :
    countGid (rhFold droot now hist rows) g = countGid hist g := by
  induction rows generalizing hist with
  | nil => rfl
  | cons t rest ih =>
    simp only [rhFold]
    by_cases hg : t.gid = some g
    · have hex : gidExists hist t.gid = true := by
        rw [hg]; exact (gidExists_eq_true_iff hist g).mpr hpos
      rw [hex]
      simpa using ih hist hpos
    · cases hex : gidExists hist t.gid
      · have hc : countGid (hist ++ [mkTHRow droot now t]) g = countGid hist g := by
          rw [countGid_append, countGid_single_ne _ _ (by simpa [mkTHRow] using hg)]
          omega
        simp only [hex, Bool.false_eq_true, if_false]
        rw [ih _ (by rw [hc]; exact hpos), hc]
      · simpa using ih hist hpos

theorem rhFold_count_new (droot : List String) (now : Int) (g : String)
    (rows : List AriaRow) (hist : List THRow) (h0 : countGid hist g = 0)
    (hr : ∃ r ∈ rows, r.gid = some g) :
    countGid (rhFold droot now hist rows) g = 1 := by
  induction rows generalizing hist with
  | nil =>
    obtain ⟨r, hm, _⟩ := hr
    exact absurd hm (List.not_mem_nil r)
  | cons t rest ih =>
    obtain ⟨r, hm, hrg⟩ := hr
    simp only [rhFold]
    by_cases hg : t.gid = some g
    · have hex : gidExists hist t.gid = false := by
        rw [hg]; exact gidExists_eq_false hist g h0
      rw [hex]
      have h1 : countGid (hist ++ [mkTHRow droot now t]) g = 1 := by
        rw [countGid_append, h0, countGid_single_eq _ _ (by simpa [mkTHRow] using hg)]
      simpa [rhFold_count_pres droot now g rest _ (by omega : 0 < countGid (hist ++ [mkTHRow droot now t]) g)] using h1
    · have hrrest : r ∈ rest := by
        rcases List.mem_cons.mp hm with h | h
        · exact absurd (h ▸ hrg) hg
        · exact h
      cases hex : gidExists hist t.gid
      · have h0' : countGid (hist ++ [mkTHRow droot now t]) g = 0 := by
          rw [countGid_append, h0, countGid_single_ne _ _ (by simpa [mkTHRow] using hg)]
        simpa using ih _ h0' ⟨r, hrrest, hrg⟩
      · simpa using ih hist h0 ⟨r, hrrest, hrg⟩

theorem recordHistoryGo_eq_fold (droot : List String) (forget : Option String → Bool)
    (now : Int) (rows : List AriaRow) (hist : List THRow)
    (hall : ∀ r ∈ rows, forget r.gid = true) :
    recordHistoryGo droot forget now hist rows = some (rhFold droot now hist rows) := by
  induction rows generalizing hist with
  | nil => rfl
  | cons t rest ih =>
    simp only [recordHistoryGo, rhFold, hall t (List.mem_cons_self t rest)]
    simpa using ih _ (fun r hr => hall r (List.mem_cons_of_mem _ hr))

theorem recordHistoryGo_fail (droot : List String) (forget : Option String → Bool)
    (now : Int) (r : AriaRow) (post : List AriaRow) (hfail : forget r.gid = false)
    (pre : List AriaRow) (hist : List THRow)
    (hall : ∀ x ∈ pre, forget x.gid = true) :
    recordHistoryGo droot forget now hist (pre ++ r :: post) = none := by
  induction pre generalizing hist with
  | nil => simp [recordHistoryGo, hfail]
  | cons x xs ih =>
    simp only [List.cons_append, recordHistoryGo, hall x (List.mem_cons_self x xs)]
    simpa using ih _ (fun y hy => hall y (List.mem_cons_of_mem _ hy))

theorem torrentTick_count_new (droot : List String) (now : Int) (g : String)
    (hist : List THRow) (stopped : List AriaRow) (h0 : countGid hist g = 0)
    (hr : ∃ r ∈ stopped, r.status = "complete" ∧ r.gid = some g) :
    countGid (torrentTick droot (fun _ => true) now hist stopped) g = 1 := by
  obtain ⟨r, hmem, hst, hgid⟩ := hr
  have hmemf : r ∈ stopped.filter (fun r => r.status == "complete") :=
    List.mem_filter.mpr ⟨hmem, by simp [hst]⟩
  have hne : (stopped.filter (fun r => r.status == "complete")).isEmpty = false :=
    List.isEmpty_eq_false.mpr (List.ne_nil_of_mem hmemf)
  unfold torrentTick record_history
  rw [recordHistoryGo_eq_fold droot _ now _ hist (fun _ _ => rfl), hne]
  simpa using rhFold_count_new droot now g _ hist h0 ⟨r, hmemf, hgid⟩

theorem torrentTick_count_pres (droot : List String) (now : Int) (g : String)
    (hist : List THRow) (stopped : List AriaRow) (hpos : 0 < countGid hist g) :
    countGid (torrentTick droot (fun _ => true) now hist stopped) g = countGid hist g := by
  unfold torrentTick record_history
  cases hE : (stopped.filter (fun r => r.status == "complete")).isEmpty
  · rw [recordHistoryGo_eq_fold droot _ now _ hist (fun _ _ => rfl)]
    simpa using rhFold_count_pres droot now g _ hist hpos
  · simp [hE]

/-- C2: across any nonempty sequence of reconciler ticks in each of which
gid `g` is reported among the stopped rows with status `complete`, starting
from a history with no record for `g` and with the forget RPC succeeding
(normal operation), exactly one `torrent_history` record with that gid
exists afterwards: the existence-check-then-insert absorbs every duplicate
observation. -/
theorem torrent_history_unique_gid (droot : List String) (now : Int) (g : String)
    (hist0 : List THRow) (ticks : List (List AriaRow))
    (h0 : countGid hist0 g = 0) (hne : ticks ≠ [])
    (hall : ∀ t ∈ ticks, ∃ r ∈ t, r.status = "complete" ∧ r.gid = some g) :
    countGid (ticks.foldl (torrentTick droot (fun _ => true) now) hist0) g = 1 := by
  obtain ⟨t0, rest, rfl⟩ := List.exists_cons_of_ne_nil hne
  simp only [List.foldl_cons]
  have h1 : countGid (torrentTick droot (fun _ => true) now hist0 t0) g = 1 :=
    torrentTick_count_new droot now g hist0 t0 h0 (hall t0 (List.mem_cons_self t0 rest))
  have aux : ∀ (ts : List (List AriaRow)) (h : List THRow), countGid h g = 1 →
      countGid (ts.foldl (torrentTick droot (fun _ => true) now) h) g = 1 := by
    intro ts
    induction ts with
    | nil => intro h hh; exact hh
    | cons a as ih =>
      intro h hh
      simp only [List.foldl_cons]
      exact ih _ (by rw [torrentTick_count_pres droot now g h a (by omega)]; exact hh)
  exact aux rest _ h1

/-- Witness for `torrent_history_unique_gid`: three ticks each reporting
gid `gW` complete leave exactly one record. -/
theorem torrent_history_unique_gid_witness :
    countGid (([[wRow], [wRow], [wRow]] : List (List AriaRow)).foldl
      (torrentTick [] (fun _ => true) 0) []) "gW" = 1 :=
  torrent_history_unique_gid [] 0 "gW" [] [[wRow], [wRow], [wRow]] rfl
    (by decide) (by decide)

/-- C6 (counterexample): in a tick observing two completed jobs `g1`, `g2`
where the forget RPC fails for `g2`, no record is committed at all — in
particular `g1`'s record, which the claim says must still be committed, is
absent (the whole sqlite transaction rolls back). -/
theorem record_history_forget_failure_cex :
    countGid (record_history [] cexForget 0 [] [cexRow1, cexRow2]) "g1" = 0 ∧
    cexForget cexRow1.gid = true ∧
    cexRow1.status = "complete" ∧ cexRow1.gid = some "g1" ∧
    cexRow2.status = "complete" := by
  decide

/-- C6 (amended): the forget call is issued per row after that row's
insert attempt but inside the transaction, before the commit.  When every
forget call of the tick succeeds, every observed gid has a committed
record; when any forget call raises, the whole tick's transaction rolls
back and no record from that tick is committed (the poller itself
survives, since `_torrent_task` swallows the exception). -/
theorem record_history_forget_behavior (droot : List String)
    (forget : Option String → Bool) (now : Int) (hist : List THRow) :
    (∀ rows : List AriaRow, (∀ r ∈ rows, forget r.gid = true) →
      ∀ g : String, (∃ r ∈ rows, r.gid = some g) →
        0 < countGid (record_history droot forget now hist rows) g) ∧
    (∀ (pre : List AriaRow) (r : AriaRow) (post : List AriaRow),
      (∀ x ∈ pre, forget x.gid = true) → forget r.gid = false →
      record_history droot forget now hist (pre ++ r :: post) = hist) := by
  constructor
  · rintro rows hallt g ⟨r, hr, hg⟩
    have hne : rows.isEmpty = false :=
      List.isEmpty_eq_false.mpr (List.ne_nil_of_mem hr)
    unfold record_history
    rw [recordHistoryGo_eq_fold droot forget now rows hist hallt, hne]
    by_cases h0 : countGid hist g = 0
    · simp only [Bool.false_eq_true, if_false]
      rw [rhFold_count_new droot now g rows hist h0 ⟨r, hr, hg⟩]
      omega
    · simp only [Bool.false_eq_true, if_false]
      rw [rhFold_count_pres droot now g rows hist (Nat.pos_of_ne_zero h0)]
      omega
  · intro pre r post hallt hfail
    unfold record_history
    rw [recordHistoryGo_fail droot forget now r post hfail pre hist hallt]
    simp

/-- Witness for `record_history_forget_behavior`: commits happen when every
forget succeeds, and a failing forget rolls the tick back. -/
theorem record_history_forget_behavior_witness :
    0 < countGid (record_history [] (fun _ => true) 0 [] [cexRow1]) "g1" ∧
    record_history [] cexForget 0 [] ([cexRow1] ++ cexRow2 :: []) = [] := by
  constructor
  · exact (record_history_forget_behavior [] (fun _ => true) 0 []).1 [cexRow1]
      (by decide) "g1" (by decide)
  · exact (record_history_forget_behavior [] cexForget 0 []).2 [cexRow1] cexRow2 []
      (by decide) (by decide)

/-! ## C3/C4/C10: share registry -/

theorem findShare_append_fresh (shares : List ShareRow) (x : ShareRow)
    (h : ∀ r ∈ shares, r.token ≠ x.token) :
    findShare (shares ++ [x]) x.token = some x := by
  induction shares with
  | nil => simp [findShare]
  | cons s ss ih =>
    have hs : ¬ (s.token == x.token) = true := by
      simpa using h s (List.mem_cons_self s ss)
    show List.find? (fun r => r.token == x.token) ((s :: ss) ++ [x]) = some x
    rw [List.cons_append,
      @List.find?_cons_of_neg ShareRow (fun r => r.token == x.token) s (ss ++ [x]) hs]
    exact ih (fun r hr => h r (List.mem_cons_of_mem _ hr))

/-- C3: issuing a share for an existing sandboxed target and immediately
resolving the returned token finds a share row with the same target path
and the same directory flag; a `ttlHours <= 0` stores `expires_at` as SQL
`NULL`, which the expiry check never treats as expired. -/
theorem share_issue_then_resolve (shares : List ShareRow) (fsE isD : String → Bool)
    (target : String) (hours now : ℚ) (token : String)
    (hex : fsE target = true) (hfresh : ∀ r ∈ shares, r.token ≠ token) :
    ∃ shares', api_share shares fsE isD target hours now token = some shares' ∧
      ∃ row, findShare shares' token = some row ∧
        row.target_path = target ∧ row.is_dir = isD target ∧
        (hours ≤ 0 → row.expires_at = none) ∧
        (row.expires_at = none → ∀ t : ℚ, isExpired row.expires_at t = false) := by
  refine ⟨shares ++
      [{ token := token, target_path := target, is_dir := isD target,
         expires_at := if 0 < hours then some (pyTrunc (now + hours * 3600)) else none,
         created_at := pyTrunc now }],
    by simp [api_share, hex], ?_⟩
  refine ⟨_, findShare_append_fresh shares _ hfresh, rfl, rfl, ?_, ?_⟩
  · intro hle
    exact if_neg (not_lt.mpr hle)
  · intro hnone t
    rw [hnone]
    rfl

/-- Witness for `share_issue_then_resolve` at a concrete no-expiry
issuance. -/
theorem share_issue_then_resolve_witness :
    ∃ shares', api_share [] (fun _ => true) (fun _ => false) "/storage/a" 0 1000 "tok" =
        some shares' ∧
      ∃ row, findShare shares' "tok" = some row ∧
        row.target_path = "/storage/a" ∧ row.is_dir = (fun _ => false) "/storage/a" ∧
        ((0 : ℚ) ≤ 0 → row.expires_at = none) ∧
        (row.expires_at = none → ∀ t : ℚ, isExpired row.expires_at t = false) :=
  share_issue_then_resolve [] (fun _ => true) (fun _ => false) "/storage/a" 0 1000 "tok"
    rfl (by intro r hr; cases hr)

/-- C4 (counterexample): an expired token does not produce the same
outcome as an unknown one: `shared_entry` answers 410 `Link expired` for
the expired token `t1` and 404 for the never-issued token `t2`, so the
caller can distinguish them. -/
theorem shared_entry_expired_vs_unknown_cex :
    shared_entry cexShares (fun _ => true) (fun _ => true) 200 "t1" "" =
      ShareOutcome.expired ∧
    shared_entry cexShares (fun _ => true) (fun _ => true) 200 "t2" "" =
      ShareOutcome.notFound ∧
    ShareOutcome.expired ≠ ShareOutcome.notFound := by
  decide

/-- C4 (amended): a token whose expiry has passed yields the distinct 410
`Link expired` outcome, while an unknown token yields 404 `NotFound`;
expired shares are therefore distinguishable from unknown ones. -/
theorem shared_entry_expired_and_unknown (shares : List ShareRow)
    (fsE fsF : String → Bool) (now : ℚ) (tok1 tok2 child1 child2 : String)
    (row : ShareRow) (h1 : findShare shares tok1 = some row)
    (h2 : isExpired row.expires_at now = true)
    (h3 : findShare shares tok2 = none) :
    shared_entry shares fsE fsF now tok1 child1 = ShareOutcome.expired ∧
    shared_entry shares fsE fsF now tok2 child2 = ShareOutcome.notFound ∧
    ShareOutcome.expired ≠ ShareOutcome.notFound := by
  refine ⟨?_, ?_, by decide⟩
  · simp [shared_entry, h1, h2]
  · simp [shared_entry, h3]

/-- Witness for `shared_entry_expired_and_unknown` on the concrete expired
share table. -/
theorem shared_entry_expired_and_unknown_witness :
    shared_entry cexShares (fun _ => true) (fun _ => true) 300 "t1" "c" =
      ShareOutcome.expired ∧
    shared_entry cexShares (fun _ => true) (fun _ => true) 300 "t9" "d" =
      ShareOutcome.notFound ∧
    ShareOutcome.expired ≠ ShareOutcome.notFound :=
  shared_entry_expired_and_unknown cexShares (fun _ => true) (fun _ => true) 300
    "t1" "t9" "c" "d"
    { token := "t1", target_path := "/root/f.txt", is_dir := false,
      expires_at := some 100, created_at := 50 }
    (by decide) (by decide) (by decide)

/-- C10: for a token resolving to a file share, `shared_entry` serves the
stored target immediately; the `p` child parameter is never consulted, so
any two child values give the identical outcome and no containment re-check
happens. -/
theorem shared_entry_file_ignores_child (shares : List ShareRow)
    (fsE fsF : String → Bool) (now : ℚ) (token c1 c2 : String) (row : ShareRow)
    (hfind : findShare shares token = some row)
    (hnexp : isExpired row.expires_at now = false)
    (hex : fsE row.target_path = true)
    (hfile : row.is_dir = false) :
    shared_entry shares fsE fsF now token c1 = ShareOutcome.fileServed row.target_path ∧
    shared_entry shares fsE fsF now token c1 = shared_entry shares fsE fsF now token c2 := by
  have h : ∀ c, shared_entry shares fsE fsF now token c =
      ShareOutcome.fileServed row.target_path := by
    intro c
    simp [shared_entry, hfind, hnexp, hex, hfile]
  exact ⟨h c1, (h c1).trans (h c2).symm⟩

/-- Witness for `shared_entry_file_ignores_child`: a `..`-laden child and a
plain child both stream the stored file of a file share. -/
theorem shared_entry_file_ignores_child_witness :
    shared_entry wShares (fun _ => true) (fun _ => true) 200 "t3" "sub/.." =
      ShareOutcome.fileServed "/root/file.bin" ∧
    shared_entry wShares (fun _ => true) (fun _ => true) 200 "t3" "sub/.." =
      shared_entry wShares (fun _ => true) (fun _ => true) 200 "t3" "other" :=
  shared_entry_file_ignores_child wShares (fun _ => true) (fun _ => true) 200 "t3"
    "sub/.." "other"
    { token := "t3", target_path := "/root/file.bin", is_dir := false,
      expires_at := none, created_at := 10 }
    (by decide) rfl rfl rfl

/-! ## C5/C9: local yt-dlp job tracker -/

/-- C5: evaluating the submission/worker cycle at the failing input shows
the bug: `youtubedl_add` never inserts a handle into `YTDL_TASKS` (every
write in `run_youtubedl` is guarded by `if task_id in YTDL_TASKS`), so the
task map and the broadcast snapshot stay empty and no
`running → finished` transition ever happens — while the persisted row is
created with the placeholder name, updated to the resolved title, and gets
`completedAt` on success, as claimed. -/
theorem ytdl_taskhandle_never_created :
    (youtubedl_add ⟨[], [], 1⟩ "https://example.com/v" "Video" true 100 "tid1").1.tasks = [] ∧
    ytdlSnapshot (youtubedl_add ⟨[], [], 1⟩ "https://example.com/v" "Video" true 100 "tid1").1 = [] ∧
    (run_youtubedl_success
      (youtubedl_add ⟨[], [], 1⟩ "https://example.com/v" "Video" true 100 "tid1").1
      "tid1"
      (youtubedl_add ⟨[], [], 1⟩ "https://example.com/v" "Video" true 100 "tid1").2.2
      "Resolved Title" 200).tasks = [] ∧
    ytdlSnapshot (run_youtubedl_success
      (youtubedl_add ⟨[], [], 1⟩ "https://example.com/v" "Video" true 100 "tid1").1
      "tid1"
      (youtubedl_add ⟨[], [], 1⟩ "https://example.com/v" "Video" true 100 "tid1").2.2
      "Resolved Title" 200) = [] ∧
    (youtubedl_add ⟨[], [], 1⟩ "https://example.com/v" "Video" true 100 "tid1").1.history =
      [⟨1, "Fetching title...", "https://example.com/v", "Video", true, 100, none⟩] ∧
    (run_youtubedl_success
      (youtubedl_add ⟨[], [], 1⟩ "https://example.com/v" "Video" true 100 "tid1").1
      "tid1"
      (youtubedl_add ⟨[], [], 1⟩ "https://example.com/v" "Video" true 100 "tid1").2.2
      "Resolved Title" 200).history =
      [⟨1, "Resolved Title", "https://example.com/v", "Video", true, 100, some 200⟩] := by
  decide

/-- C9: in the event trace of an accepted local-extraction submission,
every worker start is strictly preceded by the insert of the placeholder
history row for its `db_id` (name `"Fetching title..."`, `completed_at`
unset) and by the commit of that insert. -/
theorem ytdl_record_before_worker (link dest : String) (audioOnly : Bool)
    (now : Int) (taskId : String) (dbId : Nat) (i : Nat)
    (h : (youtubedl_add_trace link dest audioOnly now taskId dbId)[i]? =
      some (YtdlEvent.workerStart taskId dbId)) :
    ∃ k m row, k < m ∧ m < i ∧
      (youtubedl_add_trace link dest audioOnly now taskId dbId)[k]? =
        some (YtdlEvent.dbInsert row) ∧
      row.id = dbId ∧ row.name = "Fetching title..." ∧ row.completedAt = none ∧
      (youtubedl_add_trace link dest audioOnly now taskId dbId)[m]? =
        some YtdlEvent.dbCommit := by
  rcases i with _ | _ | _ | n
  · simp [youtubedl_add_trace] at h
  · simp [youtubedl_add_trace] at h
  · exact ⟨0, 1,
      { id := dbId, name := "Fetching title...", url := link, dest := dest,
        audioOnly := audioOnly, addedAt := now, completedAt := none },
      Nat.zero_lt_one, by omega, rfl, rfl, rfl, rfl, rfl⟩
  · simp [youtubedl_add_trace] at h

/-- Witness for `ytdl_record_before_worker` at a concrete submission. -/
theorem ytdl_record_before_worker_witness :
    ∃ k m row, k < m ∧ m < 2 ∧
      (youtubedl_add_trace "u" "d" true 7 "tid" 42)[k]? =
        some (YtdlEvent.dbInsert row) ∧
      row.id = 42 ∧ row.name = "Fetching title..." ∧ row.completedAt = none ∧
      (youtubedl_add_trace "u" "d" true 7 "tid" 42)[m]? =
        some YtdlEvent.dbCommit :=
  ytdl_record_before_worker "u" "d" true 7 "tid" 42 2 rfl

/-! ## C7: display-name inference -/

/-- C7: `_infer_name` prefers the embedded structured (truthy) name; on
`["Show/S01/e1.mkv", "Show/S01/e2.mkv"]` it returns the last segment
`"S01"` of the longest common path-segment prefix; with no common prefix it
returns the first file's own name; and with no usable input it returns
`"(unknown)"`. -/
theorem infer_name_spec :
    (∀ (files : List AriaFile) (b : Bittorrent) (i : BtInfo) (n : String),
        b.info = some i → i.name = some n → n ≠ "" →
        infer_name files (some b) = n) ∧
    infer_name [⟨some "Show/S01/e1.mkv"⟩, ⟨some "Show/S01/e2.mkv"⟩] none = "S01" ∧
    infer_name [⟨some "alpha/x.mkv"⟩, ⟨some "beta/y.mkv"⟩] none = "x.mkv" ∧
    infer_name [] none = "(unknown)" := by
  refine ⟨?_, by decide, by decide, rfl⟩
  intro files b i n hb hn hne
  simp [infer_name, btName, hb, hn, hne]

/-- Witness for `infer_name_spec`: the structured name is preferred even
with an empty file list. -/
theorem infer_name_spec_witness :
    infer_name [] (some ⟨some ⟨some "NN"⟩⟩) = "NN" :=
  infer_name_spec.1 [] ⟨some ⟨some "NN"⟩⟩ ⟨some "NN"⟩ "NN" rfl rfl (by decide)

/-! ## C8: destination-folder inference -/

theorem str_toList_append (a b : String) : (a ++ b).toList = a.toList ++ b.toList :=
  String.data_append a b

theorem splitSlashAux_no_slash (cs : List Char) :
    ∀ cur, '/' ∉ cur → ∀ p ∈ splitSlashAux cur cs, '/' ∉ p := by
  induction cs with
  | nil =>
    intro cur hcur p hp
    simp only [splitSlashAux, List.mem_singleton] at hp
    subst hp
    simpa using hcur
  | cons c cs ih =>
    intro cur hcur p hp
    by_cases hc : c = '/'
    · subst hc
      simp only [splitSlashAux, beq_self_eq_true, if_true, List.mem_cons] at hp
      rcases hp with rfl | hp
      · simpa using hcur
      · exact ih [] (by simp) p hp
    · have hb : (c == '/') = false := by simp [hc]
      simp only [splitSlashAux, hb, Bool.false_eq_true, if_false] at hp
      refine ih (c :: cur) ?_ p hp
      simp only [List.mem_cons, not_or]
      exact ⟨fun e => hc e.symm, hcur⟩

theorem parsePath_wf (s : String) :
    ∀ x ∈ (parsePath s).segs, x.toList ≠ [] ∧ '/' ∉ x.toList := by
  intro x hx
  simp only [parsePath] at hx
  obtain ⟨l, hl, rfl⟩ := List.mem_map.mp hx
  obtain ⟨hlp, hcond⟩ := List.mem_filter.mp hl
  have hlne : l ≠ [] := by
    intro e
    subst e
    simp at hcond
  constructor
  · simpa using hlne
  · exact splitSlashAux_no_slash s.toList [] (by simp) l hlp

theorem wf_head_last (cl : List Char) (h : '/' ∉ cl) :
    cl.head? ≠ some '/' ∧ cl.getLast? ≠ some '/' := by
  constructor
  · intro hh
    exact h (List.mem_of_mem_head? (by simp [hh]))
  · intro hh
    apply h
    rw [← List.head?_reverse] at hh
    exact List.mem_reverse.mp (List.mem_of_mem_head? (by simp [hh]))

theorem joinSegs_edges (l : List String)
    (hwf : ∀ x ∈ l, x.toList ≠ [] ∧ '/' ∉ x.toList) (hne : l ≠ []) :
    (joinSegs l).toList ≠ [] ∧ (joinSegs l).toList.head? ≠ some '/' ∧
    (joinSegs l).toList.getLast? ≠ some '/' := by
  induction l with
  | nil => exact absurd rfl hne
  | cons a rest ih =>
    cases rest with
    | nil =>
      have hw := hwf a (by simp)
      have he := wf_head_last a.toList hw.2
      exact ⟨hw.1, he.1, he.2⟩
    | cons b rest' =>
      have hw := hwf a (by simp)
      have ih' := ih (fun x hx => hwf x (List.mem_cons_of_mem _ hx)) (by simp)
      have hslash : ("/" : String).toList = ['/'] := rfl
      have ht : (joinSegs (a :: b :: rest')).toList
          = (a.toList ++ ['/']) ++ (joinSegs (b :: rest')).toList := by
        show ((a ++ "/") ++ joinSegs (b :: rest')).toList = _
        rw [str_toList_append, str_toList_append, hslash]
      refine ⟨?_, ?_, ?_⟩
      · intro hcontra
        rw [ht] at hcontra
        simp [List.append_eq_nil] at hcontra
      · rw [ht, List.head?_append, List.head?_append]
        cases hal : a.toList with
        | nil => exact absurd hal hw.1
        | cons c cs =>
          have hcne : c ≠ '/' := by
            have := hw.2
            rw [hal] at this
            simp only [List.mem_cons, not_or] at this
            exact fun e => this.1 e.symm
          simp [hcne]
      · rw [ht, List.getLast?_append_of_ne_nil _ ih'.1]
        exact ih'.2.2

theorem dropWhile_slash_eq_self (cl : List Char) (h : cl.head? ≠ some '/') :
    cl.dropWhile (fun c => c == '/') = cl := by
  cases cl with
  | nil => rfl
  | cons c cs =>
    have hcne : c ≠ '/' := by
      intro e
      exact h (by simp [e])
    simp [List.dropWhile_cons, hcne]

theorem pyStripSlash_eq_self (s : String) (h1 : s.toList.head? ≠ some '/')
    (h2 : s.toList.getLast? ≠ some '/') : pyStripSlash s = s := by
  unfold pyStripSlash
  rw [dropWhile_slash_eq_self _ h1,
    dropWhile_slash_eq_self s.toList.reverse (by rw [List.head?_reverse]; exact h2),
    List.reverse_reverse]
  cases s
  rfl

theorem strip_strOfRelSegs (l : List String)
    (hwf : ∀ x ∈ l, x.toList ≠ [] ∧ '/' ∉ x.toList) :
    pyStripSlash (strOfRelSegs l) = strOfRelSegs l := by
  cases l with
  | nil => rfl
  | cons a rest =>
    have h := joinSegs_edges (a :: rest) hwf (by simp)
    have hs : strOfRelSegs (a :: rest) = joinSegs (a :: rest) := by
      simp [strOfRelSegs]
    rw [hs]
    exact pyStripSlash_eq_self _ h.2.1 h.2.2

theorem joinSegs_append (a b : List String) (ha : a ≠ []) (hb : b ≠ []) :
    joinSegs (a ++ b) = joinSegs a ++ "/" ++ joinSegs b := by
  induction a with
  | nil => exact absurd rfl ha
  | cons x xs ih =>
    cases xs with
    | nil =>
      cases b with
      | nil => exact absurd rfl hb
      | cons y ys => simp [joinSegs]
    | cons x2 xs2 =>
      have hih := ih (by simp)
      show x ++ "/" ++ joinSegs ((x2 :: xs2) ++ b) =
        (x ++ "/" ++ joinSegs (x2 :: xs2)) ++ "/" ++ joinSegs b
      rw [hih]
      simp [String.append_assoc]

theorem startsWith_abs_append (root u : List String) (hu : u ≠ []) :
    pyStartsWith (strOfPath ⟨true, root ++ u⟩) (strOfPath ⟨true, root⟩) = true := by
  rw [pyStartsWith, List.isPrefixOf_iff_prefix]
  cases root with
  | nil =>
    show (("/" : String) ++ joinSegs []).toList <+: (("/" : String) ++ joinSegs u).toList
    rw [str_toList_append, str_toList_append]
    simp only [joinSegs]
    have hemp : ("" : String).toList = [] := rfl
    rw [hemp, List.append_nil]
    exact List.prefix_append _ _
  | cons a as =>
    show (("/" : String) ++ joinSegs (a :: as)).toList <+:
      (("/" : String) ++ joinSegs ((a :: as) ++ u)).toList
    rw [joinSegs_append (a :: as) u (by simp) hu]
    rw [str_toList_append, str_toList_append, str_toList_append, str_toList_append]
    simp [List.append_assoc]

/-- C8: for a nonempty (canonical) download root, the destination stored by
`_record_history` coincides, on every file list, with the claim's reading:
the first file's parent directory expressed relative to the download root
(`"."` for the root itself, hence the stored `"/."` for files sitting
directly in the root), and `"/"` whenever that cannot be computed — no
files, no path value, or a first file not under the root.  The model is
total, so the computation never raises out of the poller. -/
theorem infer_dest_eq_dest_spec (droot : List String) (hroot : droot ≠ [])
    (files : List AriaFile) : infer_dest droot files = dest_spec droot files := by
  match files with
  | [] => rfl
  | f0 :: rest =>
    match hp : f0.path with
    | none => simp [infer_dest, dest_spec, hp]
    | some s =>
      simp only [infer_dest, dest_spec, hp]
      by_cases hcond : (parsePath s).isAbs = true ∧ droot <+: (parsePath s).segs ∧
          (parsePath s).segs ≠ droot
      · rw [if_pos hcond]
        obtain ⟨habs, hpre, hne⟩ := hcond
        obtain ⟨u, hu⟩ := hpre
        have hune : u ≠ [] := by
          rintro rfl
          exact hne (by rw [← hu, List.append_nil])
        have hps : parsePath s = ⟨true, droot ++ u⟩ := by
          cases hq : parsePath s with
          | mk pa ps =>
            rw [hq] at habs hu
            simp only at habs hu
            rw [habs, hu]
        have hsw : pyStartsWith (strOfPath (parsePath s)) (strOfPath ⟨true, droot⟩) = true := by
          rw [hps]
          exact startsWith_abs_append droot u hune
        have hrel : relTo (parentP (parsePath s)) droot = some u.dropLast := by
          have hpar : (parentP (parsePath s)).segs = droot ++ u.dropLast := by
            rw [hps]
            simp [parentP, List.dropLast_append_of_ne_nil _ hune]
          have hpab : (parentP (parsePath s)).isAbs = true := by
            rw [hps]; rfl
          have hip : droot.isPrefixOf (parentP (parsePath s)).segs = true := by
            rw [hpar, List.isPrefixOf_iff_prefix]
            exact List.prefix_append _ _
          simp [relTo, hpab, hip, hpar, List.drop_left]
        have hwfd : ∀ x ∈ u.dropLast, x.toList ≠ [] ∧ '/' ∉ x.toList := by
          intro x hx
          refine parsePath_wf s x ?_
          rw [← hu]
          exact List.mem_append_right droot (List.dropLast_subset u hx)
        simp only [hsw, hrel, if_true]
        rw [strip_strOfRelSegs _ hwfd, ← hu,
          List.dropLast_append_of_ne_nil _ hune, List.drop_left]
      · rw [if_neg hcond]
        cases hsw : pyStartsWith (strOfPath (parsePath s)) (strOfPath ⟨true, droot⟩)
        · simp [hsw]
        · have hrel : relTo (parentP (parsePath s)) droot = none := by
            by_cases habs : (parsePath s).isAbs = true
            · by_cases hpre : droot <+: (parsePath s).segs
              · have heq : (parsePath s).segs = droot := by
                  by_contra hne
                  exact hcond ⟨habs, hpre, hne⟩
                have hip : droot.isPrefixOf (parentP (parsePath s)).segs = false := by
                  simp only [parentP, heq]
                  cases h : droot.isPrefixOf droot.dropLast
                  · rfl
                  · have hlen := ( List.isPrefixOf_iff_prefix.mp h).length_le
                    rw [List.length_dropLast] at hlen
                    have h0 : droot.length ≠ 0 := fun e => hroot (List.length_eq_zero.mp e)
                    exact absurd hlen (by omega)
                simp [relTo, hip]
              · have hip : droot.isPrefixOf (parentP (parsePath s)).segs = false := by
                  simp only [parentP]
                  cases h : droot.isPrefixOf (parsePath s).segs.dropLast
                  · rfl
                  · exact absurd (( List.isPrefixOf_iff_prefix.mp h).trans
                      ( List.dropLast_prefix _)) hpre
                simp [relTo, hip]
            · have hab : (parsePath s).isAbs = false := by
                cases hx : (parsePath s).isAbs
                · rfl
                · exact absurd hx habs
              simp [relTo, parentP, hab]
          simp [hsw, hrel]

/-- Witness for `infer_dest_eq_dest_spec` at a file under the download
root. -/
theorem infer_dest_eq_dest_spec_witness :
    infer_dest ["mnt", "drive"] [⟨some "/mnt/drive/Movies/a.mkv"⟩] =
      dest_spec ["mnt", "drive"] [⟨some "/mnt/drive/Movies/a.mkv"⟩] :=
  infer_dest_eq_dest_spec ["mnt", "drive"] (by decide) [⟨some "/mnt/drive/Movies/a.mkv"⟩]

end KoalaCloud
